import Mathlib

/-!
Verification of the `salespark-mongo-repo-utils` middleware layer
(main module: the file exporting `withCache`, `withTransaction`,
`invalidateCache`, `stableStringify`, `buildCacheKey`, `normalizeTTL`,
`_parseWriteArg`, `upsertOne`, `resolveModel`, ...).

The JavaScript source is shallowly embedded: JS values are modelled by an
inductive type `JSVal` (the fragment of values the verified operations
inspect: `undefined`, `null`, booleans, integral finite numbers, `NaN`,
strings, bigints, functions, `Date`s, arrays and plain objects), stateful
operations pass their state (cache-adapter store, metrics record)
explicitly, async functions are modelled as pure state transformers
(the layer assumes single-threaded cooperative scheduling), and a thrown
JS exception is an `Except.error`.
-/

namespace MRepo

/-- The fragment of JavaScript values the verified layer inspects.
`vNum` is an integral finite number (the layer performs no fractional
arithmetic); `vNaN` stands for a non-finite number. A valid `Date` is
carried by its ISO-8601 rendering (`toISOString`); `vDateInvalid` is an
invalid `Date`, whose `toISOString` throws. `vObj` lists own enumerable
properties in insertion order. -/
inductive JSVal : Type where
  | vUndefined : JSVal
  | vNull : JSVal
  | vBool (b : Bool) : JSVal
  | vNum (n : Int) : JSVal
  | vNaN : JSVal
  | vStr (s : String) : JSVal
  | vBigInt (n : Int) : JSVal
  | vFunc (name : String) : JSVal
  | vDate (iso : String) : JSVal
  | vDateInvalid : JSVal
  | vArr (elems : List JSVal) : JSVal
  | vObj (fields : List (String × JSVal)) : JSVal

open JSVal

/-- JavaScript `typeof`. -/
def jsTypeof : JSVal → String
  | vUndefined => "undefined"
  | vNull => "object"
  | vBool _ => "boolean"
  | vNum _ => "number"
  | vNaN => "number"
  | vStr _ => "string"
  | vBigInt _ => "bigint"
  | vFunc _ => "function"
  | vDate _ => "object"
  | vDateInvalid => "object"
  | vArr _ => "object"
  | vObj _ => "object"

/-- JavaScript truthiness (`Boolean(v)`). -/
def truthy : JSVal → Bool
  | vUndefined => false
  | vNull => false
  | vBool b => b
  | vNum n => n != 0
  | vNaN => false
  | vStr s => s != ""
  | vBigInt n => n != 0
  | vFunc _ => true
  | vDate _ => true
  | vDateInvalid => true
  | vArr _ => true
  | vObj _ => true

/-- Property read `v[k]` for the modelled fragment: own-property lookup on
plain objects, `undefined` everywhere else (in particular `.data` and
`.status` on a primitive string are `undefined`). -/
def getField (v : JSVal) (k : String) : JSVal :=
  match v with
  | vObj fields =>
    match fields.find? (fun p => p.1 == k) with
    | some p => p.2
    | none => vUndefined
  | _ => vUndefined

/-- The `in` operator on a plain object (`"k" in obj`). -/
def hasField (v : JSVal) (k : String) : Bool :=
  match v with
  | vObj fields => fields.any (fun p => p.1 == k)
  | _ => false

/-- `Array.isArray`. -/
def isArray : JSVal → Bool
  | vArr _ => true
  | _ => false

/-- Result-envelope constructor `ok(data) = \x7b status: true, data \x7d`. -/
def jsOk (data : JSVal) : JSVal :=
  vObj [("status", vBool true), ("data", data)]

/-- Result-envelope constructor for the failure branch
(`fail(err, ctx)` returns `\x7b status: false, data: err \x7d`; the logger
side effect is not observable in the envelope). -/
def jsFail (err : JSVal) : JSVal :=
  vObj [("status", vBool false), ("data", err)]

/-- The envelope test used throughout the source:
`res && typeof res.status === "boolean"`. -/
def isEnvelope (res : JSVal) : Bool :=
  truthy res && (jsTypeof (getField res "status") == "boolean")

/-- Normalization of a producer result into an envelope:
`res && typeof res.status === "boolean" ? res : ok(res)`. -/
def normalizeRes (res : JSVal) : JSVal :=
  if isEnvelope res then res else jsOk res

theorem isEnvelope_isObj {res : JSVal} (h : isEnvelope res = true) :
    ∃ fs, res = vObj fs := by
  cases res <;> simp_all [isEnvelope, truthy, getField, jsTypeof]

theorem normalizeRes_isObj (res : JSVal) :
    ∃ fs, normalizeRes res = vObj fs := by
  by_cases h : isEnvelope res = true
  · obtain ⟨fs, rfl⟩ := isEnvelope_isObj h
    exact ⟨fs, by simp [normalizeRes, h]⟩
  · exact ⟨[("status", vBool true), ("data", res)], by simp [normalizeRes, h, jsOk]⟩

/-! ## Write-argument parser (`_parseWriteArg`) -/

/-- Result triple of `_parseWriteArg`; a field that was never assigned is
`undefined`. -/
structure ParsedWriteArg where
  options : JSVal
  invalidateKeys : JSVal
  invalidatePrefixes : JSVal

/-- Shallow embedding of `_parseWriteArg(arg)` from the source:
falsy argument → all-`undefined` triple; string or array → the whole
argument becomes `invalidateKeys`; object → extract
`invalidateKeys`/`invalidatePrefixes` when present, then
`options = arg.options` when `"options" in arg` and
`typeof arg.options === "object"`, **else** the whole object when one of
`session`/`upsert`/`writeConcern`/`runValidators` is present at top
level; any other truthy value → all-`undefined` triple. -/
def _parseWriteArg (arg : JSVal) : ParsedWriteArg :=
  if !truthy arg then
    ⟨vUndefined, vUndefined, vUndefined⟩
  else if jsTypeof arg == "string" || isArray arg then
    ⟨vUndefined, arg, vUndefined⟩
  else if jsTypeof arg == "object" then
    let invalidateKeys := if hasField arg "invalidateKeys" then getField arg "invalidateKeys" else vUndefined
    let invalidatePrefixes := if hasField arg "invalidatePrefixes" then getField arg "invalidatePrefixes" else vUndefined
    let options :=
      if hasField arg "options" && (jsTypeof (getField arg "options") == "object") then
        getField arg "options"
      else if hasField arg "session" || hasField arg "upsert" || hasField arg "writeConcern" || hasField arg "runValidators" then
        arg
      else
        vUndefined
    ⟨options, invalidateKeys, invalidatePrefixes⟩
  else
    ⟨vUndefined, vUndefined, vUndefined⟩

/-! ## `upsertOne` store-options construction -/

/-- Set (or overwrite in place) a property of an insertion-ordered field
list, as JS property assignment does: an existing key keeps its position
and receives the new value, a fresh key is appended. -/
def setKey : List (String × JSVal) → String → JSVal → List (String × JSVal)
  | [], k, v => [(k, v)]
  | p :: rest, k, v => if p.1 = k then (k, v) :: rest else p :: setKey rest k v

/-- Own enumerable properties contributed by spreading a value
(`\x7b ...v \x7d`): an object spreads its fields, an array spreads its
elements under index keys, primitives and `null`/`undefined` spread
nothing (string index spreading is outside the modelled fragment). -/
def spreadFields : JSVal → List (String × JSVal)
  | vObj fields => fields
  | vArr elems => (elems.enum.map (fun p => (toString p.1, p.2)))
  | _ => []

/-- The store-options record `upsertOne` builds:
`const opts = \x7b upsert: true, ...options \x7d` — the literal starts
from `upsert: true` and then copies the user options' own properties in
order, overwriting on key collision. -/
def upsertOneOpts (options : JSVal) : List (String × JSVal) :=
  (spreadFields options).foldl (fun acc p => setKey acc p.1 p.2) [("upsert", vBool true)]

/-- Final value of the `upsert` property that `upsertOne` passes to the
store write (`updateOne`/`findOneAndUpdate` both receive `opts`). -/
def upsertFlagSent (writeArg : JSVal) : JSVal :=
  getField (vObj (upsertOneOpts (_parseWriteArg writeArg).options)) "upsert"

/-! ## TTL normalizer (`normalizeTTL`) -/

/-- Unit suffixes accepted by the TTL grammar. -/
def ttlUnits : List String := ["ms", "s", "m", "h", "d"]

/-- ASCII whitespace recognized by the modelled `String.prototype.trim`. -/
def jsWhitespace (c : Char) : Bool :=
  c = ' ' || c = '\t' || c = '\n' || c = '\r'

/-- `String.prototype.trim` on the modelled (ASCII) fragment: strip
leading and trailing whitespace. -/
def jsTrim (s : String) : String :=
  String.mk (((s.data.dropWhile jsWhitespace).reverse.dropWhile jsWhitespace).reverse)

/-- `String.prototype.toLowerCase` on the modelled (ASCII) fragment. -/
def jsToLower (s : String) : String :=
  String.mk (s.data.map fun c =>
    if 65 ≤ c.toNat ∧ c.toNat ≤ 90 then Char.ofNat (c.toNat + 32) else c)

/-- Value of a non-empty digit string (`parseInt(m[1], 10)`). -/
def digitsVal (cs : List Char) : Nat :=
  cs.foldl (fun n c => 10 * n + (c.toNat - 48)) 0

/-- Matcher for the source regex on an already-lowercased string:
the greedy digit group followed by an optional unit group anchored at
both ends; `some (value, unitGroup)` with `unitGroup = ""` when the unit
is omitted. -/
def ttlMatch (s : String) : Option (Nat × String) :=
  let cs := s.data
  let ds := cs.takeWhile Char.isDigit
  let rest := cs.dropWhile Char.isDigit
  if ds.isEmpty then none
  else if rest = [] || (String.mk rest ∈ ttlUnits) then some (digitsVal ds, String.mk rest)
  else none

/-- Multiplier table of the TTL unit switch (claim-side helper; the
`default` arm mirrors the source returning `DEFAULT_TTL`). -/
def ttlUnitMul (u : String) : Int :=
  if u = "ms" then 1
  else if u = "s" then 1000
  else if u = "m" then 60000
  else if u = "h" then 3600000
  else if u = "d" then 86400000
  else 60000

/-- Shallow embedding of `normalizeTTL(ttl)`: a finite number is clamped
at 0; a string is trimmed, lowercased and matched against
`^(\d+)(ms|s|m|h|d)?$` with an omitted unit defaulting to `ms`; every
other input (non-finite number, `null`, `undefined`, other types,
unparseable string) falls back to `DEFAULT_TTL = 60000`. -/
def normalizeTTL (ttl : JSVal) : Int :=
  match ttl with
  | vNum n => if n < 0 then 0 else n
  | vStr s =>
    match ttlMatch (jsToLower (jsTrim s)) with
    | some (value, unitRaw) =>
      let unitStr := if unitRaw = "" then "ms" else unitRaw
      if unitStr = "ms" then (value : Int)
      else if unitStr = "s" then (value : Int) * 1000
      else if unitStr = "m" then (value : Int) * 60000
      else if unitStr = "h" then (value : Int) * 3600000
      else if unitStr = "d" then (value : Int) * 86400000
      else 60000
    | none => 60000
  | _ => 60000

theorem ttlMatch_unit {s : String} {v : Nat} {u : String}
    (h : ttlMatch s = some (v, u)) : u = "" ∨ u ∈ ttlUnits := by
  simp only [ttlMatch] at h
  split at h
  · simp at h
  · split at h
    · rename_i hg
      simp only [Option.some.injEq, Prod.mk.injEq] at h
      rw [← h.2]
      simp only [Bool.or_eq_true, decide_eq_true_eq] at hg
      rcases hg with hg | hg
      · left
        rw [hg]
      · right
        exact hg
    · simp at h

/-! ## Assoc-list lookup lemmas for the spread merge -/

theorem find?_setKey_self : ∀ (fs : List (String × JSVal)) (k : String) (v : JSVal),
    (setKey fs k v).find? (fun p => p.1 == k) = some (k, v)
  | [], k, v => by simp [setKey]
  | p :: rest, k, v => by
    by_cases h : p.1 = k
    · simp [setKey, h]
    · simp [setKey, h, find?_setKey_self rest k v]

theorem find?_setKey_other : ∀ (fs : List (String × JSVal)) (k k' : String) (v : JSVal),
    k' ≠ k →
    (setKey fs k v).find? (fun p => p.1 == k') = fs.find? (fun p => p.1 == k')
  | [], k, k', v, hne => by
    have hkk : ¬ k = k' := fun hh => hne hh.symm
    simp [setKey, hkk]
  | p :: rest, k, k', v, hne => by
    have hkk : ¬ k = k' := fun hh => hne hh.symm
    by_cases h : p.1 = k
    · by_cases h' : p.1 = k'
      · exact absurd (h.symm.trans h') hkk
      · simp [setKey, h, h', hkk]
    · by_cases h' : p.1 = k'
      · simp [setKey, h, h', hne]
      · simp [setKey, h, h', find?_setKey_other rest k k' v hne]

theorem find?_foldl_setKey_not_mem (l : List (String × JSVal))
    (init : List (String × JSVal)) (k : String)
    (h : ∀ p ∈ l, p.1 ≠ k) :
    (l.foldl (fun acc p => setKey acc p.1 p.2) init).find? (fun p => p.1 == k)
      = init.find? (fun p => p.1 == k) := by
  induction l generalizing init with
  | nil => rfl
  | cons hd tl ih =>
    simp only [List.foldl_cons]
    rw [ih _ (fun p hp => h p (List.mem_cons_of_mem hd hp))]
    exact find?_setKey_other _ _ _ _ (fun hh => h hd (List.mem_cons_self hd tl) hh.symm)

theorem getField_obj (fields : List (String × JSVal)) (k : String) :
    getField (vObj fields) k
      = match fields.find? (fun p => p.1 == k) with
        | some p => p.2
        | none => vUndefined := rfl

theorem find?_foldl_setKey_mem (l : List (String × JSVal)) (init : List (String × JSVal))
    (k : String) (q : String × JSVal)
    (hnd : (l.map Prod.fst).Nodup)
    (hf : l.find? (fun p => p.1 == k) = some q) :
    (l.foldl (fun acc p => setKey acc p.1 p.2) init).find? (fun p => p.1 == k)
      = some (k, q.2) := by
  induction l generalizing init with
  | nil => simp at hf
  | cons hd tl ih =>
    simp only [List.map_cons, List.nodup_cons] at hnd
    by_cases hk : hd.1 = k
    · have hpos : (hd.1 == k) = true := by simp [hk]
      have hcons : List.find? (fun p => p.1 == k) (hd :: tl) = some hd := by
        rw [List.find?_cons, hpos]
      rw [hcons] at hf
      obtain rfl : hd = q := by simpa using hf
      have hnm : ∀ p ∈ tl, p.1 ≠ k := by
        intro p hp hh
        exact hnd.1 (by rw [hk, ← hh]; exact List.mem_map_of_mem Prod.fst hp)
      rw [List.foldl_cons]
      rw [find?_foldl_setKey_not_mem tl (setKey init hd.1 hd.2) k hnm]
      subst hk
      exact find?_setKey_self init hd.1 hd.2
    · have hneg : (hd.1 == k) = false := by simp [hk]
      have hcons : List.find? (fun p => p.1 == k) (hd :: tl)
          = List.find? (fun p => p.1 == k) tl := by
        rw [List.find?_cons, hneg]
      rw [hcons] at hf
      rw [List.foldl_cons]
      exact ih _ hnd.2 hf

/-- C10: for every write argument whose parsed options form an object
(with the duplicate-free keys every real JS object has) containing
`upsert: false`, the store options `upsertOne` builds evaluate `upsert`
to `false` (the user override wins, because the user options are spread
after the enforced `upsert: true`); when the parsed options carry no
`upsert` key, the enforced flag survives as `true`. -/
theorem C10_upsertOne_userCanDisableUpsert (writeArg : JSVal)
    (ofields : List (String × JSVal))
    (hopts : (_parseWriteArg writeArg).options = vObj ofields)
    (hnd : (ofields.map Prod.fst).Nodup) :
    (getField (vObj ofields) "upsert" = vBool false →
      upsertFlagSent writeArg = vBool false)
    ∧ (hasField (vObj ofields) "upsert" = false →
      upsertFlagSent writeArg = vBool true) := by
  have hopts2 : upsertOneOpts (_parseWriteArg writeArg).options
      = ofields.foldl (fun acc p => setKey acc p.1 p.2) [("upsert", vBool true)] := by
    rw [hopts]
    rfl
  constructor
  · intro hget
    have hfind : ∃ q, ofields.find? (fun p => p.1 == "upsert") = some q ∧ q.2 = vBool false := by
      rw [getField_obj] at hget
      rcases hfq : ofields.find? (fun p => p.1 == "upsert") with _ | q
      · rw [hfq] at hget
        exact absurd hget (by simp)
      · rw [hfq] at hget
        exact ⟨q, hfq, hget⟩
    obtain ⟨q, hfq, hq2⟩ := hfind
    unfold upsertFlagSent
    rw [hopts2, getField_obj, find?_foldl_setKey_mem ofields _ "upsert" q hnd hfq]
    exact hq2
  · intro hhas
    have hnm : ∀ p ∈ ofields, p.1 ≠ "upsert" := by
      intro p hp hh
      unfold hasField at hhas
      rw [List.any_eq_false] at hhas
      exact hhas p hp (by simp [hh])
    unfold upsertFlagSent
    rw [hopts2, getField_obj, find?_foldl_setKey_not_mem ofields _ "upsert" hnm]
    rfl

/-- C10 witness: the write argument `\x7b upsert: false \x7d` is parsed by
the flat recognized-key branch into itself, and the resulting store
options carry `upsert: false` — the user disabled the enforced upsert. -/
theorem C10_witness :
    upsertFlagSent (vObj [("upsert", vBool false)]) = vBool false :=
  (C10_upsertOne_userCanDisableUpsert (vObj [("upsert", vBool false)])
    [("upsert", vBool false)] rfl (by simp)).1 rfl

/-- C9 counterexample: on the object
`\x7b options: \x7b runValidators: true \x7d, session: "S" \x7d` — which has
both a nested options object and the recognized key `session` at top
level — the parser returns the nested object as `options`, not the
entire input object as the claim states. -/
theorem C9_counterexample :
    (_parseWriteArg (vObj [("options", vObj [("runValidators", vBool true)]), ("session", vStr "S")])).options
      = vObj [("runValidators", vBool true)]
    ∧ ¬ (_parseWriteArg (vObj [("options", vObj [("runValidators", vBool true)]), ("session", vStr "S")])).options
      = vObj [("options", vObj [("runValidators", vBool true)]), ("session", vStr "S")] := by
  refine ⟨rfl, ?_⟩
  intro hEq
  have : (vObj [("runValidators", vBool true)] : JSVal)
      = vObj [("options", vObj [("runValidators", vBool true)]), ("session", vStr "S")] := hEq
  simp at this

/-- C9 (amended): for an object write argument, the **nested-options**
branch takes priority: when a nested `options` value of typeof "object"
exists it becomes `options` even if recognized keys are also present at
top level; the flat recognized-key branch applies only when the nested
branch does not; `invalidateKeys`/`invalidatePrefixes` are extracted
whenever present, in either case. -/
theorem C9_parseWriteArg_nestedPriority (fields : List (String × JSVal)) :
    ((hasField (vObj fields) "options" && (jsTypeof (getField (vObj fields) "options") == "object")) = true →
      (_parseWriteArg (vObj fields)).options = getField (vObj fields) "options")
    ∧ ((hasField (vObj fields) "options" && (jsTypeof (getField (vObj fields) "options") == "object")) = false →
       (hasField (vObj fields) "session" || hasField (vObj fields) "upsert"
         || hasField (vObj fields) "writeConcern" || hasField (vObj fields) "runValidators") = true →
      (_parseWriteArg (vObj fields)).options = vObj fields)
    ∧ (_parseWriteArg (vObj fields)).invalidateKeys
        = (if hasField (vObj fields) "invalidateKeys" then getField (vObj fields) "invalidateKeys" else vUndefined)
    ∧ (_parseWriteArg (vObj fields)).invalidatePrefixes
        = (if hasField (vObj fields) "invalidatePrefixes" then getField (vObj fields) "invalidatePrefixes" else vUndefined) := by
  have e1 : jsTypeof (vObj fields) = "object" := rfl
  refine ⟨?_, ?_, ?_, ?_⟩
  · intro h
    rw [Bool.and_eq_true] at h
    simp [_parseWriteArg, truthy, isArray, e1, h.1, h.2]
  · intro h h2
    simp [_parseWriteArg, truthy, isArray, e1, h, h2]
  · simp [_parseWriteArg, truthy, isArray, e1]
  · simp [_parseWriteArg, truthy, isArray, e1]

/-- C9 witness: with both a nested options object and a top-level
`session` key, the nested object wins. -/
theorem C9_witness :
    (_parseWriteArg (vObj [("options", vObj [("runValidators", vBool true)]), ("session", vStr "S")])).options
      = getField (vObj [("options", vObj [("runValidators", vBool true)]), ("session", vStr "S")]) "options" :=
  (C9_parseWriteArg_nestedPriority
    [("options", vObj [("runValidators", vBool true)]), ("session", vStr "S")]).1 rfl

/-- C8 counterexample: the string `" 5m "` does not match the claim's
regex `^(\d+)(ms|s|m|h|d)?$` (even case-insensitively), so per the claim
it is "any other input" and should map to 60000 — but the code trims the
string before matching and returns 300000. -/
theorem C8_counterexample :
    ttlMatch (jsToLower " 5m ") = none ∧ normalizeTTL (vStr " 5m ") = 300000 := by
  exact ⟨by decide, by decide⟩

/-- C8 (amended): `normalizeTTL` never fails and maps: any finite
negative number to 0; finite non-negative numbers to themselves; strings
that — after trimming surrounding whitespace — match
`^(\d+)(ms|s|m|h|d)?$` case-insensitively to value × unit multiplier
(ms=1, s=1000, m=60000, h=3600000, d=86400000, omitted unit = ms); and
every other input (non-matching string, non-finite number, null,
undefined, other types) to 60000. -/
theorem C8_normalizeTTL_spec :
    (∀ n : Int, n < 0 → normalizeTTL (vNum n) = 0)
    ∧ (∀ n : Int, 0 ≤ n → normalizeTTL (vNum n) = n)
    ∧ (∀ s v u, ttlMatch (jsToLower (jsTrim s)) = some (v, u) →
        normalizeTTL (vStr s) = (v : Int) * ttlUnitMul (if u = "" then "ms" else u))
    ∧ (∀ s, ttlMatch (jsToLower (jsTrim s)) = none → normalizeTTL (vStr s) = 60000)
    ∧ (∀ t : JSVal, jsTypeof t ≠ "string" → (∀ n : Int, t ≠ vNum n) → normalizeTTL t = 60000)
    ∧ normalizeTTL (vNum (-5)) = 0
    ∧ normalizeTTL (vNum 500) = 500
    ∧ normalizeTTL (vStr "500ms") = 500
    ∧ normalizeTTL (vStr "5m") = 300000
    ∧ normalizeTTL (vStr "2d") = 172800000
    ∧ normalizeTTL (vStr "60000") = 60000
    ∧ normalizeTTL vNull = 60000
    ∧ normalizeTTL vUndefined = 60000
    ∧ normalizeTTL vNaN = 60000
    ∧ normalizeTTL (vStr "bogus") = 60000 := by
  refine ⟨?_, ?_, ?_, ?_, ?_, by decide, by decide, by decide, by decide, by decide,
    by decide, by decide, by decide, by decide, by decide⟩
  · intro n hn
    simp [normalizeTTL, hn]
  · intro n hn
    simp [normalizeTTL, not_lt.mpr hn]
  · intro s v u hm
    rcases ttlMatch_unit hm with h0 | h0
    · subst h0
      simp [normalizeTTL, hm, ttlUnitMul]
    · simp only [ttlUnits, List.mem_cons, List.mem_singleton] at h0
      rcases h0 with rfl | rfl | rfl | rfl | rfl | h0
      · simp [normalizeTTL, hm, ttlUnitMul]
      · simp [normalizeTTL, hm, ttlUnitMul]
      · simp [normalizeTTL, hm, ttlUnitMul]
      · simp [normalizeTTL, hm, ttlUnitMul]
      · simp [normalizeTTL, hm, ttlUnitMul]
      · simp at h0
  · intro s hm
    simp [normalizeTTL, hm]
  · intro t h1 h2
    cases t with
    | vNum n => exact absurd rfl (h2 n)
    | vStr s => exact absurd rfl h1
    | _ => rfl

/-- C8 witness: an unparseable string falls back to the 60000 default by
the string-fallback clause of the amended statement. -/
theorem C8_witness : normalizeTTL (vStr "1x") = 60000 :=
  C8_normalizeTTL_spec.2.2.2.1 "1x" (by decide)

/-! ## Stable serializer (`stableStringify`)

The serializer is `JSON.stringify(value, replacer)` with the source's
replacer: object keys sorted before serialization, `Date → toISOString`
(throws on an invalid date), `bigint → toString() + "n"`,
`function → "[Function:name]"`; `undefined` is omitted in objects and
rendered `null` in arrays. Tree-shaped values (each heap object occurs
once, as produced by literals) never trigger the cycle guard; the guard
itself is modelled separately on a node-id heap below. -/

/-- Hex digit for JSON `\u00XX` escapes. -/
def hexDigit (n : Nat) : Char :=
  if n < 10 then Char.ofNat (48 + n) else Char.ofNat (87 + n)

/-- JSON escaping of one character. -/
def jsonEscapeChar (c : Char) : List Char :=
  if c = '"' then ['\\', '"']
  else if c = '\\' then ['\\', '\\']
  else if c = '\n' then ['\\', 'n']
  else if c = '\t' then ['\\', 't']
  else if c = '\r' then ['\\', 'r']
  else if c.toNat < 32 then ['\\', 'u', '0', '0', hexDigit (c.toNat / 16), hexDigit (c.toNat % 16)]
  else [c]

/-- JSON string quoting. -/
def jsonQuote (s : String) : String :=
  "\"" ++ String.mk ((s.data.map jsonEscapeChar).flatten) ++ "\""

/-- Key ordering of `Object.keys(val).sort()` — default JS sort compares
strings by code units, modelled by the lexicographic `String` order
(they agree on the basic-plane fragment). -/
def keyLeP (a b : String × JSVal) : Prop :=
  a.1 ≤ b.1

instance : DecidableRel keyLeP :=
  fun a b => inferInstanceAs (Decidable (a.1 ≤ b.1))

instance : IsTotal (String × JSVal) keyLeP :=
  ⟨fun a b => le_total a.1 b.1⟩

instance : IsTrans (String × JSVal) keyLeP :=
  ⟨fun _ _ _ hab hbc => le_trans hab hbc⟩

/-- The replacer's key ordering step (a stable sort by key; JS `sort` is
required to be stable, and key duplicates cannot occur in a JS object
anyway). -/
def sortByKey (fields : List (String × JSVal)) : List (String × JSVal) :=
  List.insertionSort keyLeP fields

theorem perm_sizeOf_eq {α} [SizeOf α] {l₁ l₂ : List α} (h : l₁.Perm l₂) :
    sizeOf l₁ = sizeOf l₂ := by
  induction h with
  | nil => rfl
  | cons x _ ih => simp [ih]
  | swap x y l => simp; omega
  | trans _ _ ih1 ih2 => omega

theorem sizeOf_sortByKey (fields : List (String × JSVal)) :
    sizeOf (sortByKey fields) = sizeOf fields :=
  perm_sizeOf_eq (List.perm_insertionSort keyLeP fields)

mutual

/-- Serialization of one value in property position: `.ok none` when the
replacer-processed value is `undefined` (omitted in objects, `null` in
arrays), `.error` when the traversal throws (invalid `Date`). -/
def serProp : JSVal → Except String (Option String)
  | vUndefined => .ok none
  | vNull => .ok (some "null")
  | vBool b => .ok (some (if b then "true" else "false"))
  | vNum n => .ok (some (toString n))
  | vNaN => .ok (some "null")
  | vStr s => .ok (some (jsonQuote s))
  | vBigInt n => .ok (some (jsonQuote (toString n ++ "n")))
  | vFunc name => .ok (some (jsonQuote ("[Function:" ++ (if name = "" then "anonymous" else name) ++ "]")))
  | vDate iso => .ok (some (jsonQuote iso))
  | vDateInvalid => .error "RangeError: Invalid time value"
  | vArr elems => do
      let parts ← serElems elems
      pure (some ("[" ++ String.intercalate "," parts ++ "]"))
  | vObj fields => do
      let members ← serMembers (sortByKey fields)
      pure (some ("\x7b" ++ String.intercalate "," members ++ "\x7d"))
termination_by v => sizeOf v
decreasing_by
  all_goals simp_wf
  all_goals try rw [sizeOf_sortByKey]
  all_goals omega

/-- Array elements: an `undefined` element renders as `null`. -/
def serElems : List JSVal → Except String (List String)
  | [] => .ok []
  | v :: rest => do
      let s ← serProp v
      let others ← serElems rest
      pure ((s.getD "null") :: others)
termination_by l => sizeOf l

/-- Object members (already key-sorted): an `undefined` value drops the
member. -/
def serMembers : List (String × JSVal) → Except String (List String)
  | [] => .ok []
  | (k, v) :: rest => do
      let s ← serProp v
      let others ← serMembers rest
      match s with
      | none => pure others
      | some str => pure ((jsonQuote k ++ ":" ++ str) :: others)
termination_by l => sizeOf l

end

/-- `stableStringify(value)`: traversal result wrapped into the
`\x7b status, data \x7d` envelope; an exception during traversal is caught
and returned as a failure envelope (its message as the error datum). -/
def stableStringify (v : JSVal) : JSVal :=
  match serProp v with
  | .ok (some s) => jsOk (vStr s)
  | .ok none => jsOk vUndefined
  | .error e => jsFail (vStr e)

/-! Canonical form: recursively sort object fields by key. Two values are
"deeply equal up to object key insertion order" (the spec's notion of
structurally equal data) precisely when their canonical forms coincide. -/

mutual

/-- Canonical form of a value: object fields recursively sorted by key;
everything else unchanged. -/
def canon : JSVal → JSVal
  | vArr elems => vArr (canonList elems)
  | vObj fields => vObj (canonFields (sortByKey fields))
  | v => v
termination_by v => sizeOf v
decreasing_by
  all_goals simp_wf
  all_goals try rw [sizeOf_sortByKey]
  all_goals omega

def canonList : List JSVal → List JSVal
  | [] => []
  | v :: rest => canon v :: canonList rest
termination_by l => sizeOf l

def canonFields : List (String × JSVal) → List (String × JSVal)
  | [] => []
  | (k, v) :: rest => (k, canon v) :: canonFields rest
termination_by l => sizeOf l

end

theorem canonFields_eq_map (l : List (String × JSVal)) :
    canonFields l = l.map (fun p => (p.1, canon p.2)) := by
  induction l with
  | nil => simp [canonFields]
  | cons p rest ih =>
    cases p
    simp [canonFields, ih]

theorem pairwise_sortByKey (fields : List (String × JSVal)) :
    List.Pairwise keyLeP (sortByKey fields) :=
  List.sorted_insertionSort keyLeP fields

theorem sortByKey_canonFields_sortByKey (fields : List (String × JSVal)) :
    sortByKey (canonFields (sortByKey fields)) = canonFields (sortByKey fields) := by
  apply List.Sorted.insertionSort_eq
  rw [canonFields_eq_map]
  exact List.pairwise_map.mpr (pairwise_sortByKey fields)

mutual

/-- The serializer is invariant under canonicalization: recursively
pre-sorting object fields does not change the output, because the
replacer sorts them anyway. -/
theorem serProp_canon : (v : JSVal) → serProp (canon v) = serProp v
  | vUndefined => by simp [canon]
  | vNull => by simp [canon]
  | vBool b => by simp [canon]
  | vNum n => by simp [canon]
  | vNaN => by simp [canon]
  | vStr s => by simp [canon]
  | vBigInt n => by simp [canon]
  | vFunc name => by simp [canon]
  | vDate iso => by simp [canon]
  | vDateInvalid => by simp [canon]
  | vArr elems => by
    rw [show canon (vArr elems) = vArr (canonList elems) from by simp [canon]]
    simp only [serProp]
    rw [serElems_canon elems]
  | vObj fields => by
    rw [show canon (vObj fields) = vObj (canonFields (sortByKey fields)) from by simp [canon]]
    simp only [serProp]
    rw [sortByKey_canonFields_sortByKey fields, serMembers_canon (sortByKey fields)]
termination_by v => sizeOf v
decreasing_by
  all_goals simp_wf
  all_goals try rw [sizeOf_sortByKey]
  all_goals omega

theorem serElems_canon : (l : List JSVal) → serElems (canonList l) = serElems l
  | [] => by rw [show canonList [] = [] from by simp [canonList]]
  | v :: rest => by
    rw [show canonList (v :: rest) = canon v :: canonList rest from by simp [canonList]]
    simp only [serElems]
    rw [serProp_canon v, serElems_canon rest]
termination_by l => sizeOf l

theorem serMembers_canon : (l : List (String × JSVal)) → serMembers (canonFields l) = serMembers l
  | [] => by rw [show canonFields [] = [] from by simp [canonFields]]
  | (k, v) :: rest => by
    rw [show canonFields ((k, v) :: rest) = (k, canon v) :: canonFields rest from by simp [canonFields]]
    simp only [serMembers]
    rw [serProp_canon v, serMembers_canon rest]
termination_by l => sizeOf l

end

theorem stableStringify_canon (a b : JSVal) (h : canon a = canon b) :
    stableStringify a = stableStringify b := by
  unfold stableStringify
  rw [← serProp_canon a, ← serProp_canon b, h]

/-! ## Cycle guard on a node-identity heap

Cyclic references cannot exist in the tree-shaped `JSVal`; to state the
cycle-sentinel behaviour the traversal is also modelled over a heap of
nodes with identities: the replacer's `WeakSet` of visited objects
becomes an add-only list of visited node ids, and a revisited node
renders as the `"__cycle__"` sentinel string. -/

/-- Heap node: a string leaf, an array of node ids, or an object whose
field values are node ids. -/
inductive GNode : Type where
  | gStr (s : String) : GNode
  | gArr (elems : List Nat) : GNode
  | gObj (fields : List (String × Nat)) : GNode

/-- Key ordering for heap object fields. -/
def gKeyLeP (a b : String × Nat) : Prop :=
  a.1 ≤ b.1

instance : DecidableRel gKeyLeP :=
  fun a b => inferInstanceAs (Decidable (a.1 ≤ b.1))

/-- Walk array-element node ids with a child serializer, threading the
visited set; an absent child renders `null`. -/
def gWalkElems (f : List Nat → Nat → Option String × List Nat) :
    List Nat → List Nat → List String × List Nat
  | seen, [] => ([], seen)
  | seen, id :: rest =>
    let r := f seen id
    let others := gWalkElems f r.2 rest
    ((r.1.getD "null") :: others.1, others.2)

/-- Walk key-sorted object fields with a child serializer, threading the
visited set; an absent child drops the member. -/
def gWalkFields (f : List Nat → Nat → Option String × List Nat) :
    List Nat → List (String × Nat) → List String × List Nat
  | seen, [] => ([], seen)
  | seen, (k, id) :: rest =>
    let r := f seen id
    let others := gWalkFields f r.2 rest
    (match r.1 with
     | none => others.1
     | some str => (jsonQuote k ++ ":" ++ str) :: others.1, others.2)

/-- Serialize heap node `id`: `seen` is the add-only visited set of node
ids (the replacer's `WeakSet`); a node already in `seen` is replaced by
the `"__cycle__"` sentinel. `fuel` bounds the recursion depth (any fuel
larger than the depth actually explored gives the traversal's value). A
dangling id serializes like `undefined`. -/
def gSer (nodes : List GNode) : Nat → List Nat → Nat → Option String × List Nat
  | 0, seen, _ => (none, seen)
  | fuel + 1, seen, id =>
    match nodes.get? id with
    | none => (none, seen)
    | some (GNode.gStr s) => (some (jsonQuote s), seen)
    | some (GNode.gArr elems) =>
      if id ∈ seen then (some (jsonQuote "__cycle__"), seen)
      else
        let r := gWalkElems (gSer nodes fuel) (id :: seen) elems
        (some ("[" ++ String.intercalate "," r.1 ++ "]"), r.2)
    | some (GNode.gObj fields) =>
      if id ∈ seen then (some (jsonQuote "__cycle__"), seen)
      else
        let r := gWalkFields (gSer nodes fuel) (id :: seen) (List.insertionSort gKeyLeP fields)
        (some ("\x7b" ++ String.intercalate "," r.1 ++ "\x7d"), r.2)

/-- C7: the stable serializer maps deeply-equal values that differ only
in object key insertion order (formalized: equal canonical forms, the
canonical form recursively sorting object fields by key) to identical
results; on the node-identity heap model a node the traversal revisits
(a cyclic reference) is replaced by the fixed `"__cycle__"` sentinel —
also shown on a concrete self-referential heap; and for every value the
serializer returns an envelope (success carrying the string or an
`undefined` datum, or a failure envelope carrying the traversal
exception) rather than throwing. -/
theorem C7_stableStringify_stable_cycles_noThrow :
    (∀ a b : JSVal, canon a = canon b → stableStringify a = stableStringify b)
    ∧ (∀ (nodes : List GNode) (fuel : Nat) (seen : List Nat) (id : Nat)
        (fields : List (String × Nat)),
        nodes.get? id = some (GNode.gObj fields) → id ∈ seen →
        gSer nodes (fuel + 1) seen id = (some (jsonQuote "__cycle__"), seen))
    ∧ (gSer [GNode.gObj [("self", 0)]] 3 [] 0).1 = some "\x7b\"self\":\"__cycle__\"\x7d"
    ∧ (∀ v : JSVal, (∃ s, stableStringify v = jsOk (vStr s))
        ∨ stableStringify v = jsOk vUndefined
        ∨ (∃ e, stableStringify v = jsFail (vStr e))) := by
  refine ⟨stableStringify_canon, ?_, ?_, ?_⟩
  · intro nodes fuel seen id fields hn hm
    have hn2 : nodes[id]? = some (GNode.gObj fields) := by
      rw [← List.get?_eq_getElem?]
      exact hn
    simp [gSer, hn2, hm]
  · decide
  · intro v
    rcases hsp : serProp v with e | s
    · right
      right
      exact ⟨e, by simp [stableStringify, hsp]⟩
    · rcases s with _ | str
      · right
        left
        simp [stableStringify, hsp]
      · left
        exact ⟨str, by simp [stableStringify, hsp]⟩

/-- C7 witness: two objects with the same data and different key
insertion order serialize identically, and a concrete revisited object
node renders as the sentinel. -/
theorem C7_witness :
    stableStringify (vObj [("b", vNum 1), ("a", vNum 2)])
      = stableStringify (vObj [("a", vNum 2), ("b", vNum 1)])
    ∧ gSer [GNode.gObj [("self", 0)]] 4 [0] 0 = (some (jsonQuote "__cycle__"), [0]) :=
  ⟨C7_stableStringify_stable_cycles_noThrow.1 _ _
      (by simp +decide [canon, canonFields, sortByKey, List.insertionSort, List.orderedInsert, keyLeP]),
   C7_stableStringify_stable_cycles_noThrow.2.1 [GNode.gObj [("self", 0)]] 3 [0] 0 [("self", 0)]
      rfl (by decide)⟩

/-! ## Cache key builder (`buildCacheKey`) and hash -/

/-- One djb2-xor step: `h = (h * 33) ^ charCode`, on 32 bits (JS `^`
coerces to 32-bit integers; the xor of the two's-complement bit patterns
equals `Nat.xor` of the values reduced mod `2^32`). -/
def hashStep (h : Nat) (c : Char) : Nat :=
  Nat.xor ((h * 33) % 4294967296) (c.toNat % 4294967296)

/-- Digit for base-36 rendering (`0-9a-z`). -/
def base36Digit (n : Nat) : Char :=
  if n < 10 then Char.ofNat (48 + n) else Char.ofNat (87 + n)

/-- Base-36 digit accumulation; the first argument is fuel, which the
caller sets to the value itself (36^n > n, so it never runs out). -/
def b36go : Nat → Nat → List Char → List Char
  | _, 0, acc => acc
  | 0, _ + 1, acc => acc
  | fuel + 1, m + 1, acc => b36go fuel ((m + 1) / 36) (base36Digit ((m + 1) % 36) :: acc)

/-- `(h >>> 0).toString(36)`. -/
def natToBase36 (n : Nat) : String :=
  if n = 0 then "0" else String.mk (b36go n n [])

/-- `hash(str)`: djb2-xor seeded 5381 over the code units (Lean `Char`
codepoints; they agree with UTF-16 units on the basic plane), rendered
unsigned in base 36. -/
def jsHash (s : String) : String :=
  natToBase36 (s.data.foldl hashStep 5381)

/-- `buildCacheKey(fnName, args)`: requires `args` to be an array whose
head is a string (the model name); serializes the remaining arguments
(`stableStringify(rest)` — for an array the traversal yields a string
unless it throws, so the `.ok none` case is unreachable) and returns the
envelope carrying `"fnName:model:hash"`. -/
def buildCacheKey (fnName : String) (args : JSVal) : JSVal :=
  match args with
  | vArr (vStr model :: rest) =>
    match serProp (vArr rest) with
    | .error e => jsFail (vStr e)
    | .ok none => jsFail (vStr "unreachable: array serialization is a string")
    | .ok (some s) => jsOk (vStr (fnName ++ ":" ++ model ++ ":" ++ jsHash s))
  | _ => jsFail (vStr "Invalid args: first argument must be a model name (string)")

/-! ## Cache orchestrator (`withCache`) -/

/-- Adapter events observed during a `withCache` call. -/
inductive CacheEvent : Type where
  | getEv (key : JSVal) : CacheEvent
  | putEv (key : JSVal) (value : JSVal) (ttl : Int) : CacheEvent

/-- SameValueZero key equality on the primitive fragment (a `Map`-backed
adapter compares keys this way); composite values are keyed by reference
identity, conservatively unequal here. -/
def jsKeyEq : JSVal → JSVal → Bool
  | vUndefined, vUndefined => true
  | vNull, vNull => true
  | vBool a, vBool b => a == b
  | vNum a, vNum b => a == b
  | vStr a, vStr b => a == b
  | vBigInt a, vBigInt b => a == b
  | _, _ => false

/-- The injected working in-memory adapter: an association list from
keys to stored values. -/
structure CacheStore where
  entries : List (JSVal × JSVal)

/-- Adapter `get`: the stored value, or `undefined` when absent. -/
def storeGet (st : CacheStore) (k : JSVal) : JSVal :=
  match st.entries.find? (fun p => jsKeyEq p.1 k) with
  | some p => p.2
  | none => vUndefined

/-- Adapter `put`: store the value under the key (replacing any previous
entry). -/
def storePut (st : CacheStore) (k : JSVal) (v : JSVal) : CacheStore :=
  ⟨(k, v) :: st.entries.filter (fun p => !jsKeyEq p.1 k)⟩

/-- The cache counters of the process-wide `METRICS` record. -/
structure Metrics where
  hits : Nat
  misses : Nat
  puts : Nat
  invalidations : Nat

/-- Cache options as destructured by `withCache`: a `vUndefined` field
selects the destructuring default (`enabled = true`,
`ttl = DEFAULT_TTL`); `cacheIf = none` means the property is absent and
the default predicate applies. -/
structure CacheOpts where
  enabled : JSVal := vUndefined
  key : JSVal := vUndefined
  ttl : JSVal := vUndefined
  cacheIf : Option (JSVal → Bool) := none

/-- Default `cacheIf`: `(r) => r?.status === true`. -/
def defaultCacheIf (r : JSVal) : Bool :=
  match getField r "status" with
  | vBool true => true
  | _ => false

/-- `v === undefined`. -/
def isUndef : JSVal → Bool
  | vUndefined => true
  | _ => false

/-- `v === null`. -/
def isNull : JSVal → Bool
  | vNull => true
  | _ => false

/-- Nullish test of the `??` operator. -/
def isNullish (v : JSVal) : Bool :=
  isUndef v || isNull v

/-- `k.status === false`. -/
def statusIsFalse (k : JSVal) : Bool :=
  match getField k "status" with
  | vBool false => true
  | _ => false

/-- Output record of one `withCache` call. -/
structure WithCacheResult where
  result : JSVal
  store : CacheStore
  metrics : Metrics
  producerRuns : Nat
  events : List CacheEvent

/-- Shallow embedding of `withCache(fnName, args, cacheOpts, runFn)` over
the working in-memory adapter. The producer is modelled by the value
`producerRes` that `await runFn()` would return on this call; the output
records the returned envelope, the adapter store and the metrics after
the call (the source never updates the metrics cache counters), how many
times the producer ran, and the adapter get/put trace. Note the source's
`const k = key ?? buildCacheKey(...)` followed by `cacheKey = k.data`:
when an explicit key is supplied, `k` is that value itself and `k.data`
is read off it. -/
def withCache (fnName : String) (args : JSVal) (cacheOpts : Option CacheOpts)
    (producerRes : JSVal) (st : CacheStore) (m : Metrics) : WithCacheResult :=
  let opts := cacheOpts.getD ⟨vUndefined, vUndefined, vUndefined, none⟩
  let enabled := if isUndef opts.enabled then vBool true else opts.enabled
  let ttl := if isUndef opts.ttl then vNum 60000 else opts.ttl
  let cacheIf := opts.cacheIf.getD defaultCacheIf
  let normalizedTTL := normalizeTTL ttl
  if !truthy enabled then
    ⟨normalizeRes producerRes, st, m, 1, []⟩
  else
    let k := if isNullish opts.key then buildCacheKey fnName args else opts.key
    if statusIsFalse k then
      ⟨normalizeRes producerRes, st, m, 1, []⟩
    else
      let cacheKey := getField k "data"
      let hit := storeGet st cacheKey
      if !isUndef hit && !isNull hit then
        ⟨hit, st, m, 0, [CacheEvent.getEv cacheKey]⟩
      else
        let normalized := normalizeRes producerRes
        if cacheIf normalized then
          ⟨normalized, storePut st cacheKey normalized, m, 1,
            [CacheEvent.getEv cacheKey, CacheEvent.putEv cacheKey normalized normalizedTTL]⟩
        else
          ⟨normalized, st, m, 1, [CacheEvent.getEv cacheKey]⟩

/-- Two successive `withCache` calls with identical arguments: the second
runs on the adapter store and metrics left by the first. -/
def withCacheTwice (fnName : String) (args : JSVal) (cacheOpts : Option CacheOpts)
    (r1 r2 : JSVal) (st : CacheStore) (m : Metrics) :
    WithCacheResult × WithCacheResult :=
  let o1 := withCache fnName args cacheOpts r1 st m
  let o2 := withCache fnName args cacheOpts r2 o1.store o1.metrics
  (o1, o2)

theorem jsOk_status (d : JSVal) : getField (jsOk d) "status" = vBool true := rfl

theorem jsOk_data (d : JSVal) : getField (jsOk d) "data" = d := rfl

theorem statusIsFalse_jsOk (d : JSVal) : statusIsFalse (jsOk d) = false := rfl

theorem serProp_nilArr : serProp (vArr []) = .ok (some "[]") := by
  simp [serProp, serElems]
  rfl

theorem storeGet_storePut_self (st : CacheStore) (s : String) (v : JSVal) :
    storeGet (storePut st (vStr s) v) (vStr s) = v := by
  simp [storeGet, storePut, List.find?_cons, jsKeyEq]

/-- C3 (the code at the failing input): with caching enabled and the
explicit string key `"mykey"` supplied, the adapter lookup and store are
performed under `undefined` — `k` is the string itself and `k.data` is
`undefined` — so nothing is ever stored under `"mykey"`. -/
theorem C3_explicitKey_getPut_under_undefined :
    ((withCache "op" (vArr [vStr "users"]) (some ⟨vUndefined, vStr "mykey", vUndefined, none⟩)
        (jsOk (vNum 1)) ⟨[]⟩ ⟨0, 0, 0, 0⟩).events
      = [CacheEvent.getEv vUndefined,
         CacheEvent.putEv vUndefined (jsOk (vNum 1)) 60000])
    ∧ storeGet (withCache "op" (vArr [vStr "users"])
        (some ⟨vUndefined, vStr "mykey", vUndefined, none⟩)
        (jsOk (vNum 1)) ⟨[]⟩ ⟨0, 0, 0, 0⟩).store (vStr "mykey") = vUndefined :=
  ⟨rfl, rfl⟩

/-- C4 (amended): `withCache` performs no metrics updates whatsoever —
the hits/misses/puts counters (and invalidations) are unchanged by every
call, whatever the options, producer, or adapter state. -/
theorem C4_withCache_metricsUnchanged (fnName : String) (args : JSVal)
    (cacheOpts : Option CacheOpts) (producerRes : JSVal) (st : CacheStore) (m : Metrics) :
    (withCache fnName args cacheOpts producerRes st m).metrics = m := by
  unfold withCache
  dsimp only
  repeat' split
  all_goals rfl

/-- C4 counterexample: an enabled `withCache` call that misses and then
stores its envelope (both adapter events happen) leaves the all-zero
metrics record untouched — no miss or put counter is incremented. -/
theorem C4_counterexample :
    ((withCache "getOne" (vArr [vStr "users"]) (some ⟨vUndefined, vUndefined, vUndefined, none⟩)
        (jsOk (vNum 1)) ⟨[]⟩ ⟨0, 0, 0, 0⟩).metrics = (⟨0, 0, 0, 0⟩ : Metrics))
    ∧ ((withCache "getOne" (vArr [vStr "users"]) (some ⟨vUndefined, vUndefined, vUndefined, none⟩)
        (jsOk (vNum 1)) ⟨[]⟩ ⟨0, 0, 0, 0⟩).events
      = [CacheEvent.getEv (vStr ("getOne:users:" ++ jsHash "[]")),
         CacheEvent.putEv (vStr ("getOne:users:" ++ jsHash "[]")) (jsOk (vNum 1)) 60000]) := by
  constructor
  · exact C4_withCache_metricsUnchanged _ _ _ _ _ _
  · simp [withCache, buildCacheKey, serProp_nilArr, isNullish, isUndef, isNull, statusIsFalse,
      jsOk_data, storeGet, defaultCacheIf, normalizeRes, isEnvelope, truthy, getField, jsTypeof,
      jsOk, normalizeTTL]

/-- C2 counterexample: with caching enabled on a fresh working adapter
and the default `cacheIf`, a producer that returns a failure envelope is
executed by BOTH of two successive `withCache` calls with identical
`(opName, args)` — the failure envelope is never stored, refuting the
claim's "for every producer … invoke the producer exactly once". -/
theorem C2_counterexample :
    ((withCacheTwice "op" (vArr [vStr "users"]) (some ⟨vUndefined, vUndefined, vUndefined, none⟩)
        (jsFail (vStr "boom")) (jsFail (vStr "boom")) ⟨[]⟩ ⟨0, 0, 0, 0⟩).1.producerRuns
      + (withCacheTwice "op" (vArr [vStr "users"]) (some ⟨vUndefined, vUndefined, vUndefined, none⟩)
        (jsFail (vStr "boom")) (jsFail (vStr "boom")) ⟨[]⟩ ⟨0, 0, 0, 0⟩).2.producerRuns) = 2 := by
  simp [withCacheTwice, withCache, buildCacheKey, serProp_nilArr, isNullish, isUndef, isNull,
    statusIsFalse, jsOk_data, jsOk, storeGet, defaultCacheIf, normalizeRes, isEnvelope, truthy,
    getField, jsTypeof, jsFail]

/-- C2 (amended): for every producer and fixed `(opName, args)` with
caching enabled, no explicit key, a successfully built cache key that is
fresh in the working adapter, and a first producer envelope accepted by
`cacheIf` (the default accepts exactly `status === true`): two
successive `withCache` calls invoke the producer exactly once; on the
miss the producer result is normalized, accepted, and stored under the
built key with the normalized TTL; and the second call returns an
envelope equal to the first call's. -/
theorem C2_withCache_readThrough (fnName : String) (args : JSVal) (opts : CacheOpts)
    (r1 r2 : JSVal) (st : CacheStore) (m : Metrics) (keyStr : String)
    (hkey : opts.key = vUndefined)
    (henb : truthy (if isUndef opts.enabled then vBool true else opts.enabled) = true)
    (hbk : buildCacheKey fnName args = jsOk (vStr keyStr))
    (hfresh : storeGet st (vStr keyStr) = vUndefined)
    (hcif : (opts.cacheIf.getD defaultCacheIf) (normalizeRes r1) = true) :
    (withCacheTwice fnName args (some opts) r1 r2 st m).1.producerRuns = 1
    ∧ (withCacheTwice fnName args (some opts) r1 r2 st m).2.producerRuns = 0
    ∧ (withCacheTwice fnName args (some opts) r1 r2 st m).2.result
        = (withCacheTwice fnName args (some opts) r1 r2 st m).1.result
    ∧ (withCacheTwice fnName args (some opts) r1 r2 st m).1.result = normalizeRes r1
    ∧ storeGet (withCacheTwice fnName args (some opts) r1 r2 st m).1.store (vStr keyStr)
        = normalizeRes r1
    ∧ (withCacheTwice fnName args (some opts) r1 r2 st m).1.events
        = [CacheEvent.getEv (vStr keyStr),
           CacheEvent.putEv (vStr keyStr) (normalizeRes r1)
             (normalizeTTL (if isUndef opts.ttl then vNum 60000 else opts.ttl))] := by
  obtain ⟨fs, hfs⟩ := normalizeRes_isObj r1
  have hnu : isNullish vUndefined = true := rfl
  have hu1 : isUndef vUndefined = true := rfl
  have huo : isUndef (vObj fs) = false := rfl
  have hno : isNull (vObj fs) = false := rfl
  have h1 : withCache fnName args (some opts) r1 st m
      = ⟨normalizeRes r1, storePut st (vStr keyStr) (normalizeRes r1), m, 1,
         [CacheEvent.getEv (vStr keyStr),
          CacheEvent.putEv (vStr keyStr) (normalizeRes r1)
            (normalizeTTL (if isUndef opts.ttl then vNum 60000 else opts.ttl))]⟩ := by
    simp [withCache, hkey, henb, hbk, hfresh, hcif, hnu, hu1,
      statusIsFalse_jsOk, jsOk_data]
  have h2 : withCache fnName args (some opts) r2
      (storePut st (vStr keyStr) (normalizeRes r1)) m
      = ⟨normalizeRes r1, storePut st (vStr keyStr) (normalizeRes r1), m, 0,
         [CacheEvent.getEv (vStr keyStr)]⟩ := by
    have hhit : storeGet (storePut st (vStr keyStr) (vObj fs)) (vStr keyStr) = vObj fs :=
      storeGet_storePut_self st keyStr (vObj fs)
    simp [withCache, hkey, henb, hbk, hfs, hhit, hnu, huo, hno,
      statusIsFalse_jsOk, jsOk_data]
  refine ⟨?_, ?_, ?_, ?_, ?_, ?_⟩ <;>
    simp [withCacheTwice, h1, h2, storeGet_storePut_self]

/-- C2 witness: a successful producer on a fresh adapter — the first call
runs the producer and the second does not. -/
theorem C2_witness :
    (withCacheTwice "op" (vArr [vStr "users"]) (some ⟨vUndefined, vUndefined, vUndefined, none⟩)
      (jsOk (vNum 7)) (jsOk (vNum 8)) ⟨[]⟩ ⟨0, 0, 0, 0⟩).1.producerRuns = 1
    ∧ (withCacheTwice "op" (vArr [vStr "users"]) (some ⟨vUndefined, vUndefined, vUndefined, none⟩)
      (jsOk (vNum 7)) (jsOk (vNum 8)) ⟨[]⟩ ⟨0, 0, 0, 0⟩).2.producerRuns = 0 := by
  have h := C2_withCache_readThrough "op" (vArr [vStr "users"])
    ⟨vUndefined, vUndefined, vUndefined, none⟩ (jsOk (vNum 7)) (jsOk (vNum 8)) ⟨[]⟩ ⟨0, 0, 0, 0⟩
    ("op:users:" ++ jsHash "[]") rfl rfl
    (by simp [buildCacheKey, serProp_nilArr]) rfl
    (by simp [normalizeRes, isEnvelope, truthy, getField, jsTypeof, jsOk, defaultCacheIf])
  exact ⟨h.1, h.2.1⟩

/-! ## Invalidation engine (`invalidateCache`) -/

/-- Adapter state for invalidation: the present key set (the working
in-memory adapter's `keys()` enumeration) plus the keys whose `del`
throws, modelling the swallowed per-key failures. -/
structure InvStore where
  present : List String
  poison : List String

/-- The `invalidateCache` argument shapes (the layer passes string keys).
For the object form, `none` models an absent/falsy field, `Sum.inl` a
single string, `Sum.inr` an array. -/
inductive InvInput : Type where
  | noInput : InvInput
  | strIn (s : String) : InvInput
  | arrIn (keys : List String) : InvInput
  | objIn (keysF : Option (String ⊕ List String))
      (prefixesF : Option (String ⊕ List String)) : InvInput

/-- `if (input.keys) keys = Array.isArray(input.keys) ? input.keys : [input.keys]`
— a falsy field (absent or the empty string) contributes nothing. -/
def coerceField : Option (String ⊕ List String) → List String
  | none => []
  | some (Sum.inl s) => if s = "" then [] else [s]
  | some (Sum.inr l) => l

/-- `if (!input)` truthiness of the argument. -/
def invTruthy : InvInput → Bool
  | .noInput => false
  | .strIn s => s ≠ ""
  | .arrIn _ => true
  | .objIn _ _ => true

/-- The exact keys extracted from the argument. -/
def invKeys : InvInput → List String
  | .noInput => []
  | .strIn s => [s]
  | .arrIn l => l
  | .objIn kf _ => coerceField kf

/-- The prefixes extracted from the argument. -/
def invPrefixes : InvInput → List String
  | .objIn _ pf => coerceField pf
  | _ => []

/-- `new Set(list)` insertion-order de-duplication (first occurrences
kept). -/
def jsDedupAux : List String → List String → List String
  | acc, [] => acc.reverse
  | acc, k :: rest => if k ∈ acc then jsDedupAux acc rest else jsDedupAux (k :: acc) rest

def jsDedup (l : List String) : List String :=
  jsDedupAux [] l

/-- Exact-key pass: `try (cache.del(k); count++) catch ()` per key — a
throwing `del` (poisoned key) is swallowed, does not count, and does not
abort the batch. -/
def invDelKeys (st : InvStore) : List String → InvStore × Nat
  | [] => (st, 0)
  | k :: rest =>
    if k ∈ st.poison then
      invDelKeys st rest
    else
      let r := invDelKeys ⟨st.present.filter (fun x => x ≠ k), st.poison⟩ rest
      (r.1, r.2 + 1)

/-- One prefix over the fixed `all` snapshot: delete (and count) every
matching key whose `del` does not throw; deleting an already-absent key
is a counted no-op, as in the adapter contract. -/
def invDelMatches (p : String) : InvStore → List String → InvStore × Nat
  | st, [] => (st, 0)
  | st, k :: rest =>
    if k.startsWith p then
      if k ∈ st.poison then
        invDelMatches p st rest
      else
        let r := invDelMatches p ⟨st.present.filter (fun x => x ≠ k), st.poison⟩ rest
        (r.1, r.2 + 1)
    else
      invDelMatches p st rest

/-- Prefix pass: the `all` snapshot is fixed before the loop. -/
def invDelPrefixes (all : List String) : InvStore → List String → InvStore × Nat
  | st, [] => (st, 0)
  | st, p :: ps =>
    let r := invDelMatches p st all
    let r2 := invDelPrefixes all r.1 ps
    (r2.1, r.2 + r2.2)

/-- Shallow embedding of `invalidateCache(input)` over the working
adapter with possibly-failing `del`: falsy input → `ok (invalidated: 0)`;
else the truthy-filtered, Set-deduplicated exact keys are deleted first,
then `cache.keys()` is snapshotted and every truthy prefix deletes its
matching keys; the metrics invalidations counter grows by the final
count and the envelope carries it. -/
def invalidateCache (input : InvInput) (st : InvStore) (m : Metrics) :
    JSVal × InvStore × Metrics :=
  if !invTruthy input then
    (jsOk (vObj [("invalidated", vNum 0)]), st, m)
  else
    let keys := (invKeys input).filter (fun s => s ≠ "")
    let prefixes := (invPrefixes input).filter (fun s => s ≠ "")
    let r1 := invDelKeys st (jsDedup keys)
    let all := r1.1.present
    let r2 := invDelPrefixes all r1.1 prefixes
    let count := r1.2 + r2.2
    (jsOk (vObj [("invalidated", vNum count)]), r2.1,
     ⟨m.hits, m.misses, m.puts, m.invalidations + count⟩)

theorem jsDedupAux_mem (l : List String) (acc : List String) (x : String) :
    x ∈ jsDedupAux acc l ↔ x ∈ acc ∨ x ∈ l := by
  induction l generalizing acc with
  | nil => simp [jsDedupAux]
  | cons k rest ih =>
    by_cases h : k ∈ acc
    · rw [show jsDedupAux acc (k :: rest) = jsDedupAux acc rest from by simp [jsDedupAux, h]]
      rw [ih acc]
      constructor
      · intro hx
        rcases hx with hx | hx
        · exact Or.inl hx
        · exact Or.inr (List.mem_cons_of_mem k hx)
      · intro hx
        rcases hx with hx | hx
        · exact Or.inl hx
        · rcases List.mem_cons.mp hx with rfl | hx2
          · exact Or.inl h
          · exact Or.inr hx2
    · rw [show jsDedupAux acc (k :: rest) = jsDedupAux (k :: acc) rest from by simp [jsDedupAux, h]]
      rw [ih (k :: acc)]
      simp [List.mem_cons]
      tauto

theorem jsDedupAux_nodup (l : List String) (acc : List String) (h : acc.Nodup) :
    (jsDedupAux acc l).Nodup := by
  induction l generalizing acc with
  | nil =>
    rw [show jsDedupAux acc [] = acc.reverse from rfl]
    exact List.nodup_reverse.mpr h
  | cons k rest ih =>
    by_cases hk : k ∈ acc
    · rw [show jsDedupAux acc (k :: rest) = jsDedupAux acc rest from by simp [jsDedupAux, hk]]
      exact ih acc h
    · rw [show jsDedupAux acc (k :: rest) = jsDedupAux (k :: acc) rest from by simp [jsDedupAux, hk]]
      exact ih (k :: acc) (List.nodup_cons.mpr ⟨hk, h⟩)

theorem jsDedup_mem (l : List String) (x : String) : x ∈ jsDedup l ↔ x ∈ l := by
  rw [jsDedup, jsDedupAux_mem]
  simp

theorem jsDedup_nodup (l : List String) : (jsDedup l).Nodup :=
  jsDedupAux_nodup l [] List.nodup_nil

/-- Spec-side predicate: the key survives the exact pass. -/
def keptK (ks poison : List String) (x : String) : Bool :=
  !(decide (x ∈ ks) && !decide (x ∈ poison))

/-- Spec-side predicate: the key survives the prefix pass over the
snapshot `all`. -/
def keptP (all ps poison : List String) (x : String) : Bool :=
  !(decide (x ∈ all) && ps.any (fun p => x.startsWith p) && !decide (x ∈ poison))

theorem invDelKeys_poison (ks : List String) (st : InvStore) :
    ((invDelKeys st ks).1).poison = st.poison := by
  induction ks generalizing st with
  | nil => rfl
  | cons k rest ih =>
    by_cases h : k ∈ st.poison
    · simp [invDelKeys, h, ih]
    · simp [invDelKeys, h, ih]

theorem invDelKeys_count (ks : List String) (st : InvStore) :
    (invDelKeys st ks).2 = (ks.filter (fun k => !decide (k ∈ st.poison))).length := by
  induction ks generalizing st with
  | nil => rfl
  | cons k rest ih =>
    by_cases h : k ∈ st.poison
    · simp [invDelKeys, h, ih]
    · simp [invDelKeys, h, ih]

theorem invDelKeys_present (ks : List String) (st : InvStore) :
    ((invDelKeys st ks).1).present = st.present.filter (keptK ks st.poison) := by
  induction ks generalizing st with
  | nil =>
    rw [show (invDelKeys st []).1 = st from rfl]
    rw [List.filter_eq_self.mpr]
    intro a _
    simp [keptK]
  | cons k rest ih =>
    by_cases h : k ∈ st.poison
    · rw [show invDelKeys st (k :: rest) = invDelKeys st rest from by simp [invDelKeys, h]]
      rw [ih st]
      apply List.filter_congr
      intro x _
      by_cases hx : x = k
      · subst hx
        simp [keptK, h]
      · simp [keptK, hx]
    · rw [show invDelKeys st (k :: rest)
          = ((invDelKeys ⟨st.present.filter (fun x => x ≠ k), st.poison⟩ rest).1,
             (invDelKeys ⟨st.present.filter (fun x => x ≠ k), st.poison⟩ rest).2 + 1)
          from by simp [invDelKeys, h]]
      rw [ih ⟨st.present.filter (fun x => x ≠ k), st.poison⟩]
      rw [List.filter_filter]
      apply List.filter_congr
      intro x _
      by_cases hx : x = k
      · subst hx
        simp [keptK, h]
      · simp [keptK, hx]

theorem invDelMatches_poison (p : String) (all : List String) (st : InvStore) :
    ((invDelMatches p st all).1).poison = st.poison := by
  induction all generalizing st with
  | nil => rfl
  | cons k rest ih =>
    by_cases hs : k.startsWith p
    · by_cases h : k ∈ st.poison
      · simp [invDelMatches, hs, h, ih]
      · simp [invDelMatches, hs, h, ih]
    · simp [invDelMatches, hs, ih]

theorem invDelMatches_count (p : String) (all : List String) (st : InvStore) :
    (invDelMatches p st all).2
      = (all.filter (fun k => k.startsWith p && !decide (k ∈ st.poison))).length := by
  induction all generalizing st with
  | nil => rfl
  | cons k rest ih =>
    by_cases hs : k.startsWith p
    · by_cases h : k ∈ st.poison
      · simp [invDelMatches, hs, h, ih]
      · simp [invDelMatches, hs, h, ih]
    · simp [invDelMatches, hs, ih]

theorem invDelMatches_present (p : String) (all : List String) (st : InvStore) :
    ((invDelMatches p st all).1).present
      = st.present.filter (fun x => !(decide (x ∈ all) && x.startsWith p && !decide (x ∈ st.poison))) := by
  induction all generalizing st with
  | nil =>
    rw [show (invDelMatches p st []).1 = st from rfl]
    rw [List.filter_eq_self.mpr]
    intro a _
    simp
  | cons k rest ih =>
    by_cases hs : k.startsWith p
    · by_cases h : k ∈ st.poison
      · rw [show invDelMatches p st (k :: rest) = invDelMatches p st rest from by
          simp [invDelMatches, hs, h]]
        rw [ih st]
        apply List.filter_congr
        intro x _
        by_cases hx : x = k
        · subst hx
          simp [hs, h]
        · simp [hx]
      · rw [show invDelMatches p st (k :: rest)
            = ((invDelMatches p ⟨st.present.filter (fun x => x ≠ k), st.poison⟩ rest).1,
               (invDelMatches p ⟨st.present.filter (fun x => x ≠ k), st.poison⟩ rest).2 + 1)
            from by simp [invDelMatches, hs, h]]
        rw [ih ⟨st.present.filter (fun x => x ≠ k), st.poison⟩]
        rw [List.filter_filter]
        apply List.filter_congr
        intro x _
        by_cases hx : x = k
        · subst hx
          simp [hs, h]
        · simp [hx]
    · rw [show invDelMatches p st (k :: rest) = invDelMatches p st rest from by
        simp [invDelMatches, hs]]
      rw [ih st]
      apply List.filter_congr
      intro x _
      by_cases hx : x = k
      · subst hx
        simp [hs]
      · simp [hx]

theorem invDelPrefixes_poison (all ps : List String) (st : InvStore) :
    ((invDelPrefixes all st ps).1).poison = st.poison := by
  induction ps generalizing st with
  | nil => rfl
  | cons p ps ih =>
    simp [invDelPrefixes, ih, invDelMatches_poison]

theorem invDelPrefixes_count (all ps : List String) (st : InvStore) :
    (invDelPrefixes all st ps).2
      = (ps.map (fun p => (all.filter (fun k => k.startsWith p && !decide (k ∈ st.poison))).length)).sum := by
  induction ps generalizing st with
  | nil => rfl
  | cons p ps ih =>
    simp [invDelPrefixes, invDelMatches_count, ih, invDelMatches_poison]

theorem invDelPrefixes_present (all ps : List String) (st : InvStore) :
    ((invDelPrefixes all st ps).1).present = st.present.filter (keptP all ps st.poison) := by
  induction ps generalizing st with
  | nil =>
    rw [show (invDelPrefixes all st []).1 = st from rfl]
    rw [List.filter_eq_self.mpr]
    intro a _
    simp [keptP]
  | cons p ps ih =>
    rw [show invDelPrefixes all st (p :: ps)
        = ((invDelPrefixes all (invDelMatches p st all).1 ps).1,
           (invDelMatches p st all).2 + (invDelPrefixes all (invDelMatches p st all).1 ps).2)
        from by simp [invDelPrefixes]]
    rw [ih (invDelMatches p st all).1]
    rw [invDelMatches_poison, invDelMatches_present, List.filter_filter]
    apply List.filter_congr
    intro x _
    by_cases ha : x ∈ all
    · by_cases hp : x ∈ st.poison
      · simp [keptP, ha, hp]
      · by_cases hs : x.startsWith p
        · simp [keptP, ha, hp, hs]
        · simp [keptP, ha, hp, hs]
    · simp [keptP, ha]

/-- Spec-side closed form of the invalidated count: one per
de-duplicated non-failing exact key (present or not), plus — per truthy
prefix — one per non-failing key of the post-exact-pass snapshot that
starts with it. -/
def invCount (keysIn prefixesIn present poison : List String) : Nat :=
  let dk := jsDedup (keysIn.filter (fun s => s ≠ ""))
  let all := present.filter (keptK dk poison)
  (dk.filter (fun k => !decide (k ∈ poison))).length
  + ((prefixesIn.filter (fun s => s ≠ "")).map
      (fun p => (all.filter (fun k => k.startsWith p && !decide (k ∈ poison))).length)).sum

/-- C6 (amended): `invalidateCache` on the object input over a store with
key set `present` and failing-del keys `poison`: exact keys are
de-duplicated via a set (first occurrences — no duplicates, same
membership); the envelope carries the accumulated count of both passes —
one per de-duplicated non-failing exact key plus, per prefix, one per
non-failing snapshot key starting with it, the snapshot being taken
after the exact deletions (so a key matched by both an exact entry and a
prefix is counted once, not twice); the final key set keeps exactly the
keys no non-failing delete removed (every snapshot key starting with a
prefix and no other is removed, unless its delete failed — per-key
failures are swallowed and do not abort the batch); and the metrics
invalidations counter grows by that same count. -/
theorem C6_invalidateCache_spec (keysIn prefixesIn present poison : List String) (m : Metrics) :
    ((jsDedup (keysIn.filter (fun s => s ≠ ""))).Nodup
      ∧ (∀ x, x ∈ jsDedup (keysIn.filter (fun s => s ≠ ""))
          ↔ x ∈ keysIn.filter (fun s => s ≠ "")))
    ∧ (invalidateCache (InvInput.objIn (some (Sum.inr keysIn)) (some (Sum.inr prefixesIn)))
        ⟨present, poison⟩ m).1
      = jsOk (vObj [("invalidated", vNum (invCount keysIn prefixesIn present poison))])
    ∧ ((invalidateCache (InvInput.objIn (some (Sum.inr keysIn)) (some (Sum.inr prefixesIn)))
        ⟨present, poison⟩ m).2.1).present
      = (present.filter (keptK (jsDedup (keysIn.filter (fun s => s ≠ ""))) poison)).filter
          (keptP (present.filter (keptK (jsDedup (keysIn.filter (fun s => s ≠ ""))) poison))
            (prefixesIn.filter (fun s => s ≠ "")) poison)
    ∧ ((invalidateCache (InvInput.objIn (some (Sum.inr keysIn)) (some (Sum.inr prefixesIn)))
        ⟨present, poison⟩ m).2.1).poison = poison
    ∧ (invalidateCache (InvInput.objIn (some (Sum.inr keysIn)) (some (Sum.inr prefixesIn)))
        ⟨present, poison⟩ m).2.2
      = ⟨m.hits, m.misses, m.puts,
         m.invalidations + invCount keysIn prefixesIn present poison⟩ := by
  have hkeys : (invKeys (InvInput.objIn (some (Sum.inr keysIn)) (some (Sum.inr prefixesIn))))
      = keysIn := rfl
  have hpfx : (invPrefixes (InvInput.objIn (some (Sum.inr keysIn)) (some (Sum.inr prefixesIn))))
      = prefixesIn := rfl
  have hp1 := invDelKeys_present (jsDedup (keysIn.filter (fun s => s ≠ ""))) ⟨present, poison⟩
  have hq1 := invDelKeys_poison (jsDedup (keysIn.filter (fun s => s ≠ ""))) ⟨present, poison⟩
  have hc1 := invDelKeys_count (jsDedup (keysIn.filter (fun s => s ≠ ""))) ⟨present, poison⟩
  refine ⟨⟨jsDedup_nodup _, fun x => jsDedup_mem _ x⟩, ?_, ?_, ?_, ?_⟩ <;>
    simp only [invalidateCache, invTruthy, hkeys, hpfx, Bool.not_true, Bool.false_eq_true,
      if_false, invCount, invDelPrefixes_count, invDelPrefixes_present, invDelPrefixes_poison,
      hp1, hq1, hc1]

/-- C6 counterexample: on a working adapter holding only the key `"a"`,
`invalidate(\x7b keys: ["a"], prefixes: ["a"] \x7d)` reports
`invalidated: 1`, not 2 — the exact pass deletes `"a"` and the prefix
pass snapshots the keys afterwards, so the doubly-matched key is counted
once; the claim's "counted twice" fails. -/
theorem C6_counterexample :
    (invalidateCache (InvInput.objIn (some (Sum.inr ["a"])) (some (Sum.inr ["a"])))
        ⟨["a"], []⟩ ⟨0, 0, 0, 0⟩).1
      = jsOk (vObj [("invalidated", vNum 1)])
    ∧ (invalidateCache (InvInput.objIn (some (Sum.inr ["a"])) (some (Sum.inr ["a"])))
        ⟨["a"], []⟩ ⟨0, 0, 0, 0⟩).1
      ≠ jsOk (vObj [("invalidated", vNum 2)]) := by
  refine ⟨rfl, ?_⟩
  intro h
  rw [show (invalidateCache (InvInput.objIn (some (Sum.inr ["a"])) (some (Sum.inr ["a"])))
      ⟨["a"], []⟩ ⟨0, 0, 0, 0⟩).1 = jsOk (vObj [("invalidated", vNum 1)]) from rfl] at h
  simp [jsOk] at h

/-! ## Transaction retry orchestrator (`withTransaction`) -/

/-- Outcome of one execution of the transaction body
(`session.withTransaction(async () => result = await work(session))`). -/
inductive AttemptResult : Type where
  | success (v : JSVal) : AttemptResult
  | failure (e : String) : AttemptResult

/-- Environment of one `withTransaction` call: `attempts i` is the
outcome of the i-th execution of the transaction body, and the wall
clock reads `clock 0` as the `startTime` taken before the loop and
`clock (i + 1)` as the `Date.now()` read by the guard of iteration `i`
(the `attempt` counter equals the iteration index: it increments exactly
once per retried iteration). -/
structure TxBehavior : Type where
  attempts : Nat → AttemptResult
  clock : Nat → Nat

/-- The safeguard error text (maxAttempts 10, maxDurationMs 30000). -/
def retryLimitMsg : String :=
  "Transaction retry limit exceeded: max attempts (10) or duration (30000ms) reached"

/-- The retry loop, entered with `attempt = 0`: the guard enforces the
hard cap of 10 attempts and the 30000 ms wall-clock deadline measured
from `startTime` regardless of `maxCommitRetries`; then the body runs —
success returns the work value, failure retries the whole transaction
while `attempt < maxCommitRetries` and otherwise rethrows. Returns the
loop outcome and the number of body executions. -/
def txLoop (beh : TxBehavior) (mcr : Int) (startTime : Nat) (attempt : Nat) :
    Except String JSVal × Nat :=
  if _h : attempt ≥ 10 then
    (.error retryLimitMsg, 0)
  else if beh.clock (attempt + 1) - startTime > 30000 then
    (.error retryLimitMsg, 0)
  else
    match beh.attempts attempt with
    | .success v => (.ok v, 1)
    | .failure e =>
      if (attempt : Int) < mcr then
        let r := txLoop beh mcr startTime (attempt + 1)
        (r.1, r.2 + 1)
      else
        (.error e, 1)
termination_by 10 - attempt
decreasing_by omega

/-- Observable outcome of a `withTransaction` call that reached the
loop. -/
structure TxRun where
  result : JSVal
  workRuns : Nat
  sessionEnded : Bool

/-- `withTransaction` once the session is open: run the loop from
attempt 0 with `startTime = clock 0`; a success is wrapped `ok(result)`,
a thrown error is caught into a failure envelope, and the `finally`
step ends the session on every outcome. -/
def withTransactionRun (beh : TxBehavior) (mcr : Int) : TxRun :=
  let r := txLoop beh mcr (beh.clock 0) 0
  match r.1 with
  | .ok v => ⟨jsOk v, r.2, true⟩
  | .error e => ⟨jsFail (vStr e), r.2, true⟩

/-- The resolved `work` argument of `withTransaction`: callable (bundled
with its behavior) or a non-function value. -/
inductive TxWork : Type where
  | callable (beh : TxBehavior) : TxWork
  | notCallable (v : JSVal) : TxWork

/-- Top of `withTransaction`: `typeof work !== "function"` throws BEFORE
the try/catch, so the returned promise rejects (`Except.error`);
otherwise the call resolves to the loop's outcome. -/
def withTransactionTop (work : TxWork) (mcr : Int) : Except String TxRun :=
  match work with
  | .notCallable _ => .error "withTransaction: work must be a function"
  | .callable beh => .ok (withTransactionRun beh mcr)

theorem txLoop_runs_le (beh : TxBehavior) (mcr : Int) (start : Nat) :
    ∀ fuel attempt, 10 - attempt ≤ fuel →
      (txLoop beh mcr start attempt).2 ≤ 10 - attempt := by
  intro fuel
  induction fuel with
  | zero =>
    intro attempt hf
    have h10 : attempt ≥ 10 := by omega
    rw [txLoop]
    simp [h10]
  | succ n ih =>
    intro attempt hf
    rw [txLoop]
    by_cases h10 : attempt ≥ 10
    · simp [h10]
    · simp only [h10, dite_false]
      by_cases hck : beh.clock (attempt + 1) - start > 30000
      · simp [hck]
      · simp only [hck, if_false]
        cases beh.attempts attempt with
        | success v => simp; omega
        | failure e =>
          by_cases hm : (attempt : Int) < mcr
          · simp only [hm, if_true]
            have := ih (attempt + 1) (by omega)
            omega
          · simp [hm]
            omega

theorem txLoop_guard (beh : TxBehavior) (mcr : Int) (start : Nat) :
    ∀ fuel attempt, 10 - attempt ≤ fuel →
      ∀ j, attempt ≤ j → j < attempt + (txLoop beh mcr start attempt).2 →
        j < 10 ∧ beh.clock (j + 1) - start ≤ 30000 := by
  intro fuel
  induction fuel with
  | zero =>
    intro attempt h j hj1 hj2
    have h10 : attempt ≥ 10 := by omega
    rw [txLoop] at hj2
    simp [h10] at hj2
    omega
  | succ n ih =>
    intro attempt h j hj1 hj2
    rw [txLoop] at hj2
    by_cases h10 : attempt ≥ 10
    · simp [h10] at hj2
      omega
    · simp only [h10, dite_false] at hj2
      by_cases hck : beh.clock (attempt + 1) - start > 30000
      · simp [hck] at hj2
        omega
      · simp only [hck, if_false] at hj2
        by_cases hje : j = attempt
        · subst hje
          exact ⟨by omega, by omega⟩
        · cases ha : beh.attempts attempt with
          | success v =>
            rw [ha] at hj2
            simp at hj2
            omega
          | failure e =>
            rw [ha] at hj2
            by_cases hm : (attempt : Int) < mcr
            · simp only [hm, if_true] at hj2
              exact ih (attempt + 1) (by omega) j (by omega) (by omega)
            · simp [hm] at hj2
              omega

theorem txLoop_fail_step (beh : TxBehavior) (mcr : Int) (attempt : Nat) (e : String)
    (h10 : attempt < 10)
    (hck : ¬ beh.clock (attempt + 1) - beh.clock 0 > 30000)
    (ha : beh.attempts attempt = .failure e)
    (hm : (attempt : Int) < mcr) :
    txLoop beh mcr (beh.clock 0) attempt
      = ((txLoop beh mcr (beh.clock 0) (attempt + 1)).1,
         (txLoop beh mcr (beh.clock 0) (attempt + 1)).2 + 1) := by
  rw [txLoop]
  simp [Nat.not_le.mpr h10, hck, ha, hm]

theorem txLoop_fail_last (beh : TxBehavior) (mcr : Int) (attempt : Nat) (e : String)
    (h10 : attempt < 10)
    (hck : ¬ beh.clock (attempt + 1) - beh.clock 0 > 30000)
    (ha : beh.attempts attempt = .failure e)
    (hm : ¬ (attempt : Int) < mcr) :
    txLoop beh mcr (beh.clock 0) attempt = (.error e, 1) := by
  rw [txLoop]
  simp [Nat.not_le.mpr h10, hck, ha, hm]

/-- C5: `withTransaction` runs a bounded retry loop. With
`maxCommitRetries = 2` and a persistently failing work function (clock
within the deadline) the body runs exactly 3 times — the initial attempt
plus exactly two retries — and a failure envelope is returned; for every
behavior and every caller-supplied `maxCommitRetries` the body never
runs more than 10 times and no attempt starts after the 30000 ms
wall-clock deadline measured from loop start; and the session is ended
by the guaranteed-cleanup step on every outcome. -/
theorem C5_withTransaction_boundedRetry :
    (∀ beh : TxBehavior, (∀ j, ∃ e, beh.attempts j = .failure e) →
      (∀ j, beh.clock j - beh.clock 0 ≤ 30000) →
      (withTransactionRun beh 2).workRuns = 3
      ∧ getField (withTransactionRun beh 2).result "status" = vBool false
      ∧ (withTransactionRun beh 2).sessionEnded = true)
    ∧ (∀ (beh : TxBehavior) (mcr : Int), (withTransactionRun beh mcr).workRuns ≤ 10)
    ∧ (∀ (beh : TxBehavior) (mcr : Int) (j : Nat),
        j < (withTransactionRun beh mcr).workRuns →
        j < 10 ∧ beh.clock (j + 1) - beh.clock 0 ≤ 30000)
    ∧ (∀ (beh : TxBehavior) (mcr : Int), (withTransactionRun beh mcr).sessionEnded = true) := by
  have hruns : ∀ (beh : TxBehavior) (mcr : Int),
      (withTransactionRun beh mcr).workRuns = (txLoop beh mcr (beh.clock 0) 0).2 := by
    intro beh mcr
    unfold withTransactionRun
    dsimp only
    rcases h : (txLoop beh mcr (beh.clock 0) 0).1 with e | v <;> simp [h]
  have hend : ∀ (beh : TxBehavior) (mcr : Int),
      (withTransactionRun beh mcr).sessionEnded = true := by
    intro beh mcr
    unfold withTransactionRun
    dsimp only
    rcases h : (txLoop beh mcr (beh.clock 0) 0).1 with e | v <;> simp [h]
  refine ⟨?_, ?_, ?_, hend⟩
  · intro beh hfail hclock
    obtain ⟨e0, he0⟩ := hfail 0
    obtain ⟨e1, he1⟩ := hfail 1
    obtain ⟨e2, he2⟩ := hfail 2
    have hloop : txLoop beh 2 (beh.clock 0) 0 = (.error e2, 3) := by
      rw [txLoop_fail_step beh 2 0 e0 (by omega) (by have := hclock (0 + 1); omega) he0 (by omega)]
      rw [txLoop_fail_step beh 2 1 e1 (by omega) (by have := hclock (1 + 1); omega) he1 (by omega)]
      rw [txLoop_fail_last beh 2 2 e2 (by omega) (by have := hclock (2 + 1); omega) he2 (by omega)]
    refine ⟨?_, ?_, hend beh 2⟩
    · rw [hruns, hloop]
    · unfold withTransactionRun
      dsimp only
      rw [hloop]
      rfl
  · intro beh mcr
    rw [hruns]
    have := txLoop_runs_le beh mcr (beh.clock 0) 10 0 (by omega)
    omega
  · intro beh mcr j hj
    rw [hruns] at hj
    exact txLoop_guard beh mcr (beh.clock 0) 10 0 (by omega) j (by omega) (by omega)

/-- C5 witness: the always-failing work function under a constant clock:
3 body executions, a failure envelope, hard bound respected, session
ended. -/
theorem C5_witness :
    (withTransactionRun ⟨fun _ => AttemptResult.failure "boom", fun _ => 0⟩ 2).workRuns = 3
    ∧ getField (withTransactionRun ⟨fun _ => AttemptResult.failure "boom", fun _ => 0⟩ 2).result
        "status" = vBool false
    ∧ (withTransactionRun ⟨fun _ => AttemptResult.failure "boom", fun _ => 0⟩ 2).sessionEnded
        = true :=
  C5_withTransaction_boundedRetry.1 ⟨fun _ => AttemptResult.failure "boom", fun _ => 0⟩
    (fun _ => ⟨"boom", rfl⟩) (fun _ => by simp)

/-! ## `resolveModel` input validation -/

/-- An ASCII letter (`/[a-zA-Z]$/`). -/
def isAsciiLetter (c : Char) : Bool :=
  (65 ≤ c.toNat ∧ c.toNat ≤ 90) ∨ (97 ≤ c.toNat ∧ c.toNat ≤ 122)

/-- `pluralizeName(model)`: append `"s"` unless the name already ends in
`"s"` or its last character is not a letter. -/
def pluralizeName (model : String) : String :=
  if model.endsWith "s" then model
  else
    match model.data.getLast? with
    | some c => if isAsciiLetter c then model ++ "s" else model
    | none => model

/-- The input-validation prelude of `resolveModel`: a non-string model
name throws — by the function's own documented contract ("Accepts only a
string as model name. Throws if not string") — and a string proceeds to
the Mongoose-registry/model-file resolution (external collaborators)
under its pluralized name. -/
def resolveModelPrelude (model : JSVal) : Except String String :=
  match model with
  | vStr s => .ok (pluralizeName s)
  | _ => .error "resolveModel: model must be a string"

theorem isEnvelope_jsOk (d : JSVal) : isEnvelope (jsOk d) = true := rfl

theorem isEnvelope_jsFail (e : JSVal) : isEnvelope (jsFail e) = true := rfl

theorem isEnvelope_normalizeRes (r : JSVal) : isEnvelope (normalizeRes r) = true := by
  by_cases h : isEnvelope r = true
  · simp [normalizeRes, h]
  · simp [normalizeRes, h, isEnvelope_jsOk]

theorem storeGet_envelope (st : CacheStore) (k : JSVal)
    (hst : ∀ ent ∈ st.entries, isEnvelope ent.2 = true)
    (hcond : isUndef (storeGet st k) = false) :
    isEnvelope (storeGet st k) = true := by
  unfold storeGet at hcond ⊢
  rcases hfind : st.entries.find? (fun p => jsKeyEq p.1 k) with _ | p
  · rw [hfind] at hcond
    simp [isUndef] at hcond
  · rw [hfind]
    exact hst p (List.mem_of_find?_eq_some hfind)

/-- C1 counterexample: `withTransaction` invoked with the non-function
work argument `42` rejects (throws across the public boundary) instead
of returning an envelope, and `resolveModel` on the non-string `5`
throws — refuting "never throws or rejects" for these public inputs. -/
theorem C1_counterexample :
    withTransactionTop (TxWork.notCallable (vNum 42)) 0
      = .error "withTransaction: work must be a function"
    ∧ resolveModelPrelude (vNum 5) = .error "resolveModel: model must be a string" :=
  ⟨rfl, rfl⟩

/-- C1 (amended): the layer's operations return a single
`\x7b status, data \x7d` envelope — `invalidateCache` always;
`withCache` whenever every stored adapter value is an envelope (a hit is
returned verbatim and trusted); `withTransaction` with a callable work
argument resolves to an envelope for every behavior and option — except
that `withTransaction` REJECTS when the resolved work argument is not a
function (the throw precedes its try/catch), and `resolveModel` throws
on a non-string model name (its documented contract). -/
theorem C1_envelope_boundary :
    (∀ (input : InvInput) (st : InvStore) (m : Metrics),
      isEnvelope (invalidateCache input st m).1 = true)
    ∧ (∀ (fnName : String) (args : JSVal) (opts : Option CacheOpts) (r : JSVal)
        (st : CacheStore) (m : Metrics),
        (∀ ent ∈ st.entries, isEnvelope ent.2 = true) →
        isEnvelope (withCache fnName args opts r st m).result = true)
    ∧ (∀ (beh : TxBehavior) (mcr : Int), ∃ run,
        withTransactionTop (TxWork.callable beh) mcr = .ok run
        ∧ isEnvelope run.result = true)
    ∧ (∀ (v : JSVal) (mcr : Int),
        withTransactionTop (TxWork.notCallable v) mcr
          = .error "withTransaction: work must be a function")
    ∧ (∀ v : JSVal, jsTypeof v ≠ "string" →
        resolveModelPrelude v = .error "resolveModel: model must be a string") := by
  refine ⟨?_, ?_, ?_, fun v mcr => rfl, ?_⟩
  · intro input st m
    unfold invalidateCache
    dsimp only
    split
    · exact isEnvelope_jsOk _
    · exact isEnvelope_jsOk _
  · intro fnName args opts r st m hst
    unfold withCache
    dsimp only
    repeat' split
    any_goals exact isEnvelope_normalizeRes r
    all_goals
      rename_i hcond
      simp only [Bool.and_eq_true, Bool.not_eq_true'] at hcond
      exact storeGet_envelope st _ hst hcond.1
  · intro beh mcr
    refine ⟨withTransactionRun beh mcr, rfl, ?_⟩
    unfold withTransactionRun
    dsimp only
    rcases h : (txLoop beh mcr (beh.clock 0) 0).1 with e | v <;> simp [h, isEnvelope_jsOk, isEnvelope_jsFail]
  · intro v hv
    cases v <;> first | rfl | exact absurd rfl hv

/-- C1 witness: a `withCache` call on an empty adapter returns an
envelope, by the amended boundary statement. -/
theorem C1_witness :
    isEnvelope (withCache "op" (vArr [vStr "users"]) none (vNum 3) ⟨[]⟩ ⟨0, 0, 0, 0⟩).result
      = true :=
  C1_envelope_boundary.2.1 "op" (vArr [vStr "users"]) none (vNum 3) ⟨[]⟩ ⟨0, 0, 0, 0⟩
    (by simp)

end MRepo
